import Mathlib

/-!
Verification of the go-billwerk request-building and response-handling core.

The development shallowly embeds the Go sources:

* `src/pkg/request/builder.go` — the fluent request builder (`request` struct,
  `WithBaseURL`, `WithEndpoint`, `WithParam`, `AddParam`, `WithHeader`,
  `WithBasicAuth`, `WithContentTypeJSON`, `WithBody`, `WithJSONBody`, the
  terminal verbs and `build`);
* `src/optimize/billwerk.go` — the executor (`Billwerk`, `New`,
  `newBillwerkRequest`, `Do`) and the package-level `BaseURL` variable;
* the `ErrorResponse` type and its `Error()` method from the `optimize`
  package.

Go standard-library collaborators are modelled executably and faithfully to
their documented behaviour where the repository relies on them:
`net/url.Values` (ordered multimap with sorted-key encoding),
`net/http.Header` together with `textproto.CanonicalMIMEHeaderKey`,
`encoding/base64` standard encoding, `net/url.QueryEscape`, and a
simplified `encoding/json` decoder (objects, arrays, strings with the common
backslash escapes, integer numbers, booleans and null), which suffices for
every body exercised here.  Go's mutable package state (`var BaseURL`) is
modelled by explicit state passing: functions reading the variable take its
current value as an argument, and the definition `BaseURL` below is the
variable's initial value.  The cancellation context carried by the builder is
opaque to every property considered here and is omitted.
-/

/-- UTF-8 encoding of a single character, as the list of its byte values. -/
def utf8Bytes (c : Char) : List Nat :=
  let n := c.toNat
  if n < 128 then [n]
  else if n < 2048 then [192 + n / 64, 128 + n % 64]
  else if n < 65536 then [224 + n / 4096, 128 + n / 64 % 64, 128 + n % 64]
  else [240 + n / 262144, 128 + n / 4096 % 64, 128 + n / 64 % 64, 128 + n % 64]

/-- The UTF-8 bytes of a string (Go strings are byte slices in UTF-8). -/
def strBytes (s : String) : List Nat :=
  s.data.flatMap utf8Bytes

/-- The standard base64 alphabet used by Go's `encoding/base64.StdEncoding`. -/
def b64Chars : List Char :=
  "ABCDEFGHIJKLMNOPQRSTUVWXYZabcdefghijklmnopqrstuvwxyz0123456789+/".data

/-- Character of the standard base64 alphabet at a six-bit index. -/
def b64Char (n : Nat) : Char :=
  b64Chars.getD n 'A'

/-- Go's `base64.StdEncoding.EncodeToString` on a list of byte values:
three input bytes become four alphabet characters, with `=` padding for a
final group of one or two bytes. -/
def base64Encode : List Nat → String
  | [] => ""
  | [a] =>
      String.mk [b64Char (a / 4), b64Char (a % 4 * 16), '=', '=']
  | [a, b] =>
      String.mk [b64Char (a / 4), b64Char (a % 4 * 16 + b / 16),
                 b64Char (b % 16 * 4), '=']
  | a :: b :: c :: rest =>
      String.mk [b64Char (a / 4), b64Char (a % 4 * 16 + b / 16),
                 b64Char (b % 16 * 4 + c / 64), b64Char (c % 64)]
        ++ base64Encode rest

/-- Uppercase hexadecimal digit, as used by Go's percent-encoding. -/
def hexDigitChar (n : Nat) : Char :=
  "0123456789ABCDEF".data.getD n '0'

/-- Bytes Go's `url.QueryEscape` leaves unescaped: ASCII alphanumerics and
the marks `-`, `.`, `_`, `~`. -/
def isUnreservedByte (n : Nat) : Bool :=
  (48 ≤ n && n ≤ 57) || (65 ≤ n && n ≤ 90) || (97 ≤ n && n ≤ 122) ||
    n == 45 || n == 46 || n == 95 || n == 126

/-- Escape a single byte the way Go's `url.QueryEscape` does: unreserved
bytes stand for themselves, a space becomes `+`, anything else becomes a
percent-escape with uppercase hex digits. -/
def escapeByte (n : Nat) : List Char :=
  if isUnreservedByte n then [Char.ofNat n]
  else if n == 32 then ['+']
  else ['%', hexDigitChar (n / 16), hexDigitChar (n % 16)]

/-- Go's `url.QueryEscape`, applied byte-wise to the UTF-8 encoding. -/
def queryEscape (s : String) : String :=
  String.mk ((strBytes s).flatMap escapeByte)

/-- Valid header-field bytes (RFC 7230 token characters), per Go's
`textproto` package; character codes are used to spell the punctuation. -/
def isTokenCharNat (n : Nat) : Bool :=
  (48 ≤ n && n ≤ 57) || (65 ≤ n && n ≤ 90) || (97 ≤ n && n ≤ 122) ||
    [33, 35, 36, 37, 38, 39, 42, 43, 45, 46, 94, 95, 96, 124, 126].contains n

/-- ASCII uppercase conversion of a character. -/
def asciiUpperChar (c : Char) : Char :=
  if 97 ≤ c.toNat && c.toNat ≤ 122 then Char.ofNat (c.toNat - 32) else c

/-- ASCII lowercase conversion of a character. -/
def asciiLowerChar (c : Char) : Char :=
  if 65 ≤ c.toNat && c.toNat ≤ 90 then Char.ofNat (c.toNat + 32) else c

/-- The canonicalisation loop of `textproto.CanonicalMIMEHeaderKey`: the
first character and every character following a hyphen is uppercased, the
rest are lowercased. -/
def canonChars : Bool → List Char → List Char
  | _, [] => []
  | upper, c :: cs =>
      let c2 := if upper then asciiUpperChar c else asciiLowerChar c
      c2 :: canonChars (c2 == '-') cs

/-- Go's `textproto.CanonicalMIMEHeaderKey`: keys containing a byte that is
not a valid header-field byte are returned unchanged, otherwise the
canonical capitalisation is produced. -/
def canonicalMIMEHeaderKey (s : String) : String :=
  if s.data.all (fun c => isTokenCharNat c.toNat) then
    String.mk (canonChars true s.data)
  else s

/-- Go's `http.Header`: a map from canonical keys to value lists, modelled
as an association list (lookups never depend on entry order because the
builder keeps keys unique). -/
abbrev Header := List (String × List String)

/-- Replace the entry for an (already canonical) key with a single value,
or append a fresh entry; this is `textproto.MIMEHeader.Set` after key
canonicalisation. -/
def Header.setCore : Header → String → String → Header
  | [], ck, v => [(ck, [v])]
  | (k, vs) :: rest, ck, v =>
      if k = ck then (k, [v]) :: rest else (k, vs) :: Header.setCore rest ck v

/-- Go's `http.Header.Set`: canonicalise the key, then overwrite. -/
def Header.set (h : Header) (key value : String) : Header :=
  Header.setCore h (canonicalMIMEHeaderKey key) value

/-- Lookup of the value list for an (already canonical) key. -/
def Header.getCore : Header → String → Option String
  | [], _ => none
  | (k, vs) :: rest, ck => if k = ck then vs.head? else Header.getCore rest ck

/-- Go's `http.Header.Get`: canonicalise the key and return the first
stored value, if any (Go returns the empty string when absent; absence is
modelled as `none`). -/
def Header.get (h : Header) (key : String) : Option String :=
  Header.getCore h (canonicalMIMEHeaderKey key)

/-- Boolean lexicographic order on character lists, by code point.  Go's
`sort.Strings` compares UTF-8 strings byte-wise, which coincides with
code-point order because UTF-8 is order-preserving. -/
def charListLe : List Char → List Char → Bool
  | [], _ => true
  | _ :: _, [] => false
  | a :: as, b :: bs => if a < b then true else if b < a then false else charListLe as bs

/-- Lexicographic order on strings, matching Go's `sort.Strings`. -/
def strLe (a b : String) : Bool :=
  charListLe a.data b.data

/-- Go's `url.Values`: a map from key to the ordered list of values added
for that key, modelled as an association list with unique keys. -/
abbrev Values := List (String × List String)

/-- Go's `url.Values.Add`: append the value to the list stored for the key,
creating the entry if the key is new. -/
def Values.add : Values → String → String → Values
  | [], key, value => [(key, [value])]
  | (k, vs) :: rest, key, value =>
      if k = key then (k, vs ++ [value]) :: rest
      else (k, vs) :: Values.add rest key value

/-- Go's `url.Values.Set`: replace whatever is stored for the key with the
single given value. -/
def Values.set : Values → String → String → Values
  | [], key, value => [(key, [value])]
  | (k, vs) :: rest, key, value =>
      if k = key then (k, [value]) :: rest
      else (k, vs) :: Values.set rest key value

/-- Order on `Values` entries by key, the order `url.Values.Encode` sorts
keys into. -/
def keyLE (a b : String × List String) : Prop :=
  strLe a.1 b.1 = true

instance : DecidableRel keyLE :=
  fun a b => inferInstanceAs (Decidable (strLe a.1 b.1 = true))

/-- The entries of a `Values` map in the sorted key order used by
`url.Values.Encode` (Go sorts the map's keys with `sort.Strings`). -/
def Values.sortedByKey (vs : Values) : Values :=
  List.insertionSort keyLE vs

/-- The ordered key/value pairs that `url.Values.Encode` renders: keys in
sorted order, and for each key its values in stored order. -/
def encodedPairs (vs : Values) : List (String × String) :=
  (Values.sortedByKey vs).flatMap (fun e => e.2.map (fun v => (e.1, v)))

/-- Go's `url.Values.Encode`: percent-escape each key and value and join
the rendered pairs with `&`. -/
def Values.Encode (vs : Values) : String :=
  String.intercalate "&"
    ((encodedPairs vs).map (fun p => queryEscape p.1 ++ "=" ++ queryEscape p.2))

/-- The values rendered for one key, in rendered order, of a flattened
pair list. -/
def pairsFor (k : String) (ps : List (String × String)) : List String :=
  ps.filterMap (fun p => if p.1 = k then some p.2 else none)

/-- The list of values stored for a key in a `Values` map (first matching
entry; entries are unique by construction). -/
def lookupVals (k : String) : Values → List String
  | [] => []
  | (k2, vs) :: rest => if k2 = k then vs else lookupVals k rest

/-- All values attached to a key across the entries of a `Values` list. -/
def allVals (k : String) : Values → List String
  | [] => []
  | e :: rest => (if e.1 = k then e.2 else []) ++ allVals k rest

/-- N successive `AddParam`-style calls for one key. -/
def addParams (vs : Values) (k : String) (ws : List String) : Values :=
  ws.foldl (fun acc w => Values.add acc k w) vs

/-- Modelled from the spec: the root package's constant `billwerk.Version`
(the library version string) is not under `src/`; only its existence as a
fixed string matters to any property here, not its value. -/
def Version : String := "1.0.0"

/-- The `UserAgent` constant of `pkg/request/builder.go`. -/
def UserAgent : String := "go-billwerk/" ++ Version

/-- The `request` struct of `pkg/request/builder.go` (the cancellation
context field is omitted; see the module comment). -/
structure Request where
  method : String
  baseURL : String
  endpoint : String
  header : Header
  params : Values
  body : Option String

/-- `request.New`: a GET request with empty header and parameter maps and
no body. -/
def Request.New : Request :=
  { method := "GET", baseURL := "", endpoint := "", header := [],
    params := [], body := none }

/-- The materialized `*http.Request`, keeping the URL string the builder
produced (the standard library's URL parsing is treated as identity on the
string) alongside the raw query that `build` installs. -/
structure HTTPRequest where
  method : String
  url : String
  header : Header
  rawQuery : String
  body : Option String

def Request.WithBaseURL (r : Request) (baseURL : String) : Request :=
  { r with baseURL := baseURL }

def Request.WithEndpoint (r : Request) (endpoint : String) : Request :=
  { r with endpoint := endpoint }

def Request.WithParam (r : Request) (key value : String) : Request :=
  { r with params := Values.set r.params key value }

def Request.AddParam (r : Request) (key value : String) : Request :=
  { r with params := Values.add r.params key value }

def Request.WithHeader (r : Request) (key value : String) : Request :=
  { r with header := Header.set r.header key value }

/-- `request.WithBasicAuth`: format `user:pass`, base64 it and set the
`Authorization` header. -/
def Request.WithBasicAuth (r : Request) (username password : String) : Request :=
  let rawCredentials := username ++ ":" ++ password
  let credentials := base64Encode (strBytes rawCredentials)
  let value := "Basic " ++ credentials
  Request.WithHeader r "Authorization" value

def Request.WithContentTypeJSON (r : Request) : Request :=
  Request.WithHeader r "Content-Type" "application/json; charset=utf-8"

def Request.WithBody (r : Request) (body : Option String) : Request :=
  { r with body := body }

/-- A Go value handed to `WithJSONBody`; `channel` (like a function value)
is one of the kinds `encoding/json` cannot marshal. -/
inductive GoValue where
  | null
  | bool (b : Bool)
  | int (n : Int)
  | str (s : String)
  | channel

/-- JSON string escaping for the quote and backslash characters. -/
def jsonEscapeChar (c : Char) : List Char :=
  if c = '"' then ['\\', '"']
  else if c = '\\' then ['\\', '\\']
  else [c]

/-- Modelled from Go's `encoding/json`: marshalling fails on unsupported
kinds such as channels, and succeeds with the usual rendering otherwise. -/
def marshalJson : GoValue → Option String
  | GoValue.null => some "null"
  | GoValue.bool true => some "true"
  | GoValue.bool false => some "false"
  | GoValue.int n => some (toString n)
  | GoValue.str s => some (String.mk ('"' :: s.data.flatMap jsonEscapeChar ++ ['"']))
  | GoValue.channel => none

/-- `request.WithJSONBody`: sets the JSON content type, encodes the value
into a fresh buffer with the encoder's trailing newline, and ignores the
encoder's error, so a failed encode leaves the buffer — and with it the
body — empty. -/
def Request.WithJSONBody (r : Request) (v : GoValue) : Request :=
  let r2 := Request.WithContentTypeJSON r
  { r2 with body := some (match marshalJson v with
      | some s => s ++ "\n"
      | none => "") }

/-- `request.build`: concatenate base URL and endpoint verbatim, force the
`User-Agent` header, install the encoded query, and hand the accumulated
state to the materialized request. -/
def Request.build (r : Request) : HTTPRequest :=
  let fullURL := r.baseURL ++ r.endpoint
  let header := Header.set r.header "User-Agent" UserAgent
  { method := r.method, url := fullURL, header := header,
    rawQuery := Values.Encode r.params, body := r.body }

def Request.GET (r : Request) : HTTPRequest :=
  Request.build { r with method := "GET" }

def Request.POST (r : Request) : HTTPRequest :=
  Request.build { r with method := "POST" }

def Request.PUT (r : Request) : HTTPRequest :=
  Request.build { r with method := "PUT" }

def Request.DELETE (r : Request) : HTTPRequest :=
  Request.build { r with method := "DELETE" }

/-- A JSON value, the decode target of the simplified `encoding/json`
model. -/
inductive Json where
  | null
  | bool (b : Bool)
  | num (n : Int)
  | str (s : String)
  | arr (elems : List Json)
  | obj (fields : List (String × Json))

/-- Skip JSON whitespace. -/
def skipWs : List Char → List Char
  | [] => []
  | c :: cs => if c = ' ' || c = '\t' || c = '\n' || c = '\r' then skipWs cs else c :: cs

/-- Resolution of a backslash escape inside a JSON string literal. -/
def escChar (c : Char) : Option Char :=
  if c = '"' then some '"'
  else if c = '\\' then some '\\'
  else if c = '/' then some '/'
  else if c = 'n' then some '\n'
  else if c = 't' then some '\t'
  else if c = 'r' then some '\r'
  else none

/-- Parse the remainder of a JSON string literal (the opening quote already
consumed), returning its characters and the rest of the input. -/
def parseStrChars : List Char → Option (List Char × List Char)
  | [] => none
  | '"' :: rest => some ([], rest)
  | '\\' :: e :: rest =>
      match escChar e with
      | some c => (parseStrChars rest).map (fun p => (c :: p.1, p.2))
      | none => none
  | c :: rest => (parseStrChars rest).map (fun p => (c :: p.1, p.2))

/-- Numeric value of a list of decimal digits. -/
def digitsToNat (ds : List Char) : Nat :=
  ds.foldl (fun acc c => acc * 10 + (c.toNat - 48)) 0

/-- Parse an integer JSON number (optionally negated). -/
def parseNumber : List Char → Option (Json × List Char)
  | '-' :: rest =>
      let p := rest.span Char.isDigit
      if p.1.isEmpty then none
      else some (Json.num (-(Int.ofNat (digitsToNat p.1))), p.2)
  | cs =>
      let p := cs.span Char.isDigit
      if p.1.isEmpty then none
      else some (Json.num (Int.ofNat (digitsToNat p.1)), p.2)

mutual

/-- Fuel-bounded recursive-descent parser for one JSON value. -/
def parseValue : Nat → List Char → Option (Json × List Char)
  | 0, _ => none
  | Nat.succ fuel, cs =>
      match skipWs cs with
      | 'n' :: 'u' :: 'l' :: 'l' :: rest => some (Json.null, rest)
      | 't' :: 'r' :: 'u' :: 'e' :: rest => some (Json.bool true, rest)
      | 'f' :: 'a' :: 'l' :: 's' :: 'e' :: rest => some (Json.bool false, rest)
      | '"' :: rest =>
          (parseStrChars rest).map (fun p => (Json.str (String.mk p.1), p.2))
      | '[' :: rest =>
          (match skipWs rest with
           | ']' :: r => some (Json.arr [], r)
           | other => (parseElems fuel other).map (fun p => (Json.arr p.1, p.2)))
      | '\x7b' :: rest =>
          (match skipWs rest with
           | '\x7d' :: r => some (Json.obj [], r)
           | other => (parseFields fuel other).map (fun p => (Json.obj p.1, p.2)))
      | other => parseNumber other

/-- Parse the comma-separated elements of a non-empty JSON array, up to and
including the closing bracket. -/
def parseElems : Nat → List Char → Option (List Json × List Char)
  | 0, _ => none
  | Nat.succ fuel, cs =>
      match parseValue fuel cs with
      | none => none
      | some (j, rest) =>
          match skipWs rest with
          | ',' :: r =>
              (parseElems fuel r).map (fun p => (j :: p.1, p.2))
          | ']' :: r => some ([j], r)
          | _ => none

/-- Parse the members of a non-empty JSON object, up to and including the
closing brace. -/
def parseFields : Nat → List Char → Option (List (String × Json) × List Char)
  | 0, _ => none
  | Nat.succ fuel, cs =>
      match skipWs cs with
      | '"' :: rest =>
          match parseStrChars rest with
          | none => none
          | some (kcs, rest2) =>
              match skipWs rest2 with
              | ':' :: rest3 =>
                  (match parseValue fuel rest3 with
                   | none => none
                   | some (v, rest4) =>
                       match skipWs rest4 with
                       | ',' :: r =>
                           (parseFields fuel r).map
                             (fun p => ((String.mk kcs, v) :: p.1, p.2))
                       | '\x7d' :: r => some ([(String.mk kcs, v)], r)
                       | _ => none)
              | _ => none
      | _ => none

end

/-- Modelled from Go's `encoding/json`: `Decoder.Decode` reads one JSON
value from the stream (trailing input is left unread), failing on an empty
or malformed stream. -/
def parseJsonTop (s : String) : Option Json :=
  match parseValue (s.length + 1) s.data with
  | some p => some p.1
  | none => none

/-- The `ErrorResponse` struct of the `optimize` package, with Go zero
values as defaults. -/
structure ErrorResponse where
  Code : Int := 0
  ErrorMessage : String := ""
  ErrorDescription : String := ""
  HTTPReason : String := ""
  HTTPStatus : Int := 0
  Path : String := ""
  Timestamp : String := ""
  RequestID : String := ""
  TransactionError : String := ""

/-- ASCII-lowercased string, for `encoding/json`'s case-insensitive field
matching. -/
def asciiLowerStr (s : String) : String :=
  String.mk (s.data.map asciiLowerChar)

/-- Application of one JSON object member to an `ErrorResponse` being
decoded, following `encoding/json` struct decoding: members are matched
against the field tags case-insensitively, unknown members are ignored,
`null` members are skipped, and a type mismatch on a known member fails the
decode. -/
def applyErrorField (e : ErrorResponse) (k : String) (v : Json) : Option ErrorResponse :=
  if v matches Json.null then some e
  else
    match asciiLowerStr k, v with
    | "code", Json.num n => some { e with Code := n }
    | "code", _ => none
    | "error", Json.str s => some { e with ErrorMessage := s }
    | "error", _ => none
    | "message", Json.str s => some { e with ErrorDescription := s }
    | "message", _ => none
    | "http_reason", Json.str s => some { e with HTTPReason := s }
    | "http_reason", _ => none
    | "http_status", Json.num n => some { e with HTTPStatus := n }
    | "http_status", _ => none
    | "path", Json.str s => some { e with Path := s }
    | "path", _ => none
    | "timestamp", Json.str s => some { e with Timestamp := s }
    | "timestamp", _ => none
    | "request_id", Json.str s => some { e with RequestID := s }
    | "request_id", _ => none
    | "transaction_error", Json.str s => some { e with TransactionError := s }
    | "transaction_error", _ => none
    | _, _ => some e

/-- Decoding a parsed JSON value into an `ErrorResponse`: a JSON `null`
leaves the zero struct, an object is folded member by member, and any other
kind of value fails (as `encoding/json` does when unmarshalling into a
struct). -/
def errorResponseOfJson : Json → Option ErrorResponse
  | Json.null => some {}
  | Json.obj fields => fields.foldlM (fun e kv => applyErrorField e kv.1 kv.2) {}
  | _ => none

/-- The executor's error-path decode: `json.NewDecoder(res.Body).Decode(&errRes)`. -/
def decodeErrorResponse (body : String) : Option ErrorResponse :=
  (parseJsonTop body).bind errorResponseOfJson

/-- The `Error()` method of `ErrorResponse`: the short message, extended
with a colon and the description when the description is non-empty. -/
def ErrorResponse.Error (e : ErrorResponse) : String :=
  if e.ErrorDescription ≠ "" then e.ErrorMessage ++ ": " ++ e.ErrorDescription
  else e.ErrorMessage

/-- The transport configuration of `http.Client` as far as the repository
sets it: the timeout (10 seconds by default in `New`). -/
structure HTTPClient where
  timeoutSeconds : Nat := 10

/-- The `Billwerk` struct of `optimize/billwerk.go`.  The `apiKeyB64` field
exists in the source but is never written or read after construction. -/
structure Billwerk where
  apiKey : String
  apiKeyB64 : String := ""
  httpClient : HTTPClient := {}

/-- A configuration option for `New` (source type `Option`, renamed to
avoid the core `Option`); `WithHTTPClient` is the one option the package
defines. -/
inductive BillwerkOption where
  | withHTTPClient (client : HTTPClient)

/-- Application of one option to the client under construction. -/
def applyOption (b : Billwerk) : BillwerkOption → Billwerk
  | BillwerkOption.withHTTPClient c => { b with httpClient := c }

/-- The `New` constructor of `optimize/billwerk.go`: store the API key,
default the HTTP client to a 10-second timeout, then apply the options in
order. -/
def Billwerk.New (apiKey : String) (opts : List BillwerkOption) : Billwerk :=
  opts.foldl applyOption
    { apiKey := apiKey, apiKeyB64 := "", httpClient := { timeoutSeconds := 10 } }

/-- The initial value of the package-level variable `BaseURL` in
`optimize/billwerk.go`.  The variable is mutable shared state; functions
that read it take its current value as an explicit argument. -/
def BaseURL : String := "https://api.reepay.com/v1"

/-- `Billwerk.newBillwerkRequest`: a fresh builder loaded with the current
value of the `BaseURL` variable, Basic auth from the stored API key with an
empty password, and the JSON `Accept` header. -/
def Billwerk.newBillwerkRequest (b : Billwerk) (currentBaseURL : String) : Request :=
  Request.WithHeader
    (Request.WithBasicAuth (Request.WithBaseURL Request.New currentBaseURL) b.apiKey "")
    "Accept" "application/json; charset=utf-8"

/-- An HTTP response as `Do` observes it after a successful dispatch. -/
structure HTTPResponse where
  statusCode : Nat
  body : String

/-- The errors `Billwerk.Do` can return (besides transport errors, which
occur before any decoding): the decoded `ErrorResponse` itself, the
`unknown error, status code: %d` error, and the wrapped
`failed to decode response body` error (whose wrapped cause is abstracted
away). -/
inductive DoError where
  | apiError (e : ErrorResponse)
  | unknownError (statusCode : Nat)
  | decodeError

/-- The display string of a `Do` error (Go's `Error()` on each case). -/
def DoError.Error : DoError → String
  | DoError.apiError e => ErrorResponse.Error e
  | DoError.unknownError n => "unknown error, status code: " ++ toString n
  | DoError.decodeError => "failed to decode response body"

/-- `Billwerk.Do` after a successful dispatch: a status code outside
[200,400) is decoded as an `ErrorResponse` (returned as the error on
success of that decode, and replaced by the unknown-error otherwise); a
status code in [200,400) decodes the body into the caller's destination
when one is supplied.  The destination `v interface` is modelled as an
optional decoder for the caller's type, `none` standing for a nil
destination. -/
def Billwerk.Do {α : Type} (b : Billwerk) (res : HTTPResponse)
    (v : Option (String → Option α)) : Except DoError (Option α) :=
  if res.statusCode < 200 ∨ 400 ≤ res.statusCode then
    match decodeErrorResponse res.body with
    | some errRes => Except.error (DoError.apiError errRes)
    | none => Except.error (DoError.unknownError res.statusCode)
  else
    match v with
    | some dec =>
        match dec res.body with
        | some x => Except.ok (some x)
        | none => Except.error DoError.decodeError
    | none => Except.ok none

/-- The display string of the error of an executor call, when the call
failed. -/
def doErrorString {α : Type} : Except DoError (Option α) → Option String
  | Except.error e => some (DoError.Error e)
  | Except.ok _ => none

theorem getCore_setCore_same (h : Header) (ck v : String) :
    Header.getCore (Header.setCore h ck v) ck = some v := by
  induction h with
  | nil => simp [Header.setCore, Header.getCore]
  | cons e rest ih =>
      obtain ⟨k, vs⟩ := e
      by_cases hk : k = ck
      · simp [Header.setCore, Header.getCore, hk]
      · simp [Header.setCore, Header.getCore, hk, ih]

theorem foldl_applyOption_apiKey (opts : List BillwerkOption) (b : Billwerk) :
    (opts.foldl applyOption b).apiKey = b.apiKey := by
  induction opts generalizing b with
  | nil => rfl
  | cons o os ih =>
      rw [List.foldl_cons, ih]
      cases o
      rfl

theorem new_apiKey (k : String) (opts : List BillwerkOption) :
    (Billwerk.New k opts).apiKey = k :=
  foldl_applyOption_apiKey opts _

theorem authorization_header_of_builder (b : Billwerk) (cur : String) :
    Header.get (Billwerk.newBillwerkRequest b cur).header "Authorization" =
      some ("Basic " ++ base64Encode (strBytes (b.apiKey ++ ":"))) := by
  have h : b.apiKey ++ ":" ++ "" = b.apiKey ++ ":" := String.append_empty _
  calc Header.get (Billwerk.newBillwerkRequest b cur).header "Authorization"
      = some ("Basic " ++ base64Encode (strBytes (b.apiKey ++ ":" ++ ""))) := rfl
    _ = some ("Basic " ++ base64Encode (strBytes (b.apiKey ++ ":"))) := by rw [h]

/-- C3: for every base URL `b` and endpoint `e` set on a builder, the
materialized request's URL is the verbatim concatenation `b ++ e`, with no
slash normalization; in particular the spec's example base URL and endpoint
produce exactly their concatenation. -/
theorem build_url_is_verbatim_concat (r : Request) (b e : String) :
    (Request.build (Request.WithEndpoint (Request.WithBaseURL r b) e)).url = b ++ e ∧
    (Request.build (Request.WithEndpoint (Request.WithBaseURL Request.New
        "https://api.example.com/v1") "/plan/gold-plan")).url =
      "https://api.example.com/v1/plan/gold-plan" :=
  ⟨rfl, by decide⟩

/-- C5: every builder handed out by an executor constructed with API key
`k` carries the Authorization header `Basic` followed by the base64 of
`k ++ ":"` — HTTP Basic auth with the key as username and empty password —
regardless of the configured options, the current base URL, or any endpoint
later set on the builder (which touches no header). -/
theorem executor_builder_basic_auth_header (k : String) (opts : List BillwerkOption)
    (cur ep : String) :
    Header.get (Billwerk.newBillwerkRequest (Billwerk.New k opts) cur).header
        "Authorization" = some ("Basic " ++ base64Encode (strBytes (k ++ ":"))) ∧
    Header.get (Request.WithEndpoint
        (Billwerk.newBillwerkRequest (Billwerk.New k opts) cur) ep).header
        "Authorization" = some ("Basic " ++ base64Encode (strBytes (k ++ ":"))) := by
  have h := authorization_header_of_builder (Billwerk.New k opts) cur
  rw [new_apiKey] at h
  exact ⟨h, h⟩

/-- C7: when JSON serialization of the value fails, `WithJSONBody`
propagates no error and leaves the request body empty, and the materialized
request still carries that empty body — the call does not fail for this
reason. -/
theorem json_body_encode_failure_silent (r : Request) (v : GoValue)
    (h : marshalJson v = none) :
    (Request.WithJSONBody r v).body = some "" ∧
    (Request.build (Request.WithJSONBody r v)).body = some "" := by
  unfold Request.build Request.WithJSONBody
  rw [h]
  exact ⟨rfl, rfl⟩

/-- Witness for the silent-encode-failure theorem: a channel value cannot
be marshalled, and the builder produces an empty body for it. -/
theorem json_body_encode_failure_silent_witness :
    (Request.WithJSONBody Request.New GoValue.channel).body = some "" :=
  (json_body_encode_failure_silent Request.New GoValue.channel rfl).1

/-- C8: every materialized request carries the fixed library `User-Agent`
header, and a caller-supplied `User-Agent` set through `WithHeader` before
the terminal method is overwritten by `build`. -/
theorem user_agent_fixed_on_build (r : Request) (ua : String) :
    Header.get (Request.build r).header "User-Agent" = some UserAgent ∧
    Header.get (Request.build (Request.WithHeader r "User-Agent" ua)).header
        "User-Agent" = some UserAgent :=
  ⟨getCore_setCore_same _ _ _, getCore_setCore_same _ _ _⟩

/-- C1: on a response status outside [200,400), `Do` decodes the body as an
`ErrorResponse`; a successful decode is returned as the structured error,
and a failed decode yields the generic error carrying only the status
code. -/
theorem do_error_status_decodes_error_response {α : Type} (b : Billwerk)
    (res : HTTPResponse) (v : Option (String → Option α))
    (h : res.statusCode < 200 ∨ 400 ≤ res.statusCode) :
    (∀ er, decodeErrorResponse res.body = some er →
        Billwerk.Do b res v = Except.error (DoError.apiError er)) ∧
    (decodeErrorResponse res.body = none →
        Billwerk.Do b res v = Except.error (DoError.unknownError res.statusCode)) := by
  unfold Billwerk.Do
  rw [if_pos h]
  constructor
  · intro er her
    rw [her]
  · intro hn
    rw [hn]

/-- Witness for C1: a 500 response with a non-JSON body fails with the
generic unknown error carrying status 500. -/
theorem do_error_status_witness :
    Billwerk.Do (Billwerk.New "key" []) ⟨500, "Internal Server Error"⟩
        (none : Option (String → Option Json)) =
      Except.error (DoError.unknownError 500) :=
  (do_error_status_decodes_error_response _ _ _ (Or.inr (by decide))).2 rfl

/-- C2: on a response status in [200,400), a non-nil destination decodes
the body (a successful decode populates it, a failed decode yields the
decode error), and a nil destination never touches the body and succeeds. -/
theorem do_success_status_decode {α : Type} (b : Billwerk) (res : HTTPResponse)
    (dec : String → Option α) (h1 : 200 ≤ res.statusCode) (h2 : res.statusCode < 400) :
    (∀ x, dec res.body = some x →
        Billwerk.Do b res (some dec) = Except.ok (some x)) ∧
    (dec res.body = none →
        Billwerk.Do b res (some dec) = Except.error DoError.decodeError) ∧
    Billwerk.Do b res (none : Option (String → Option α)) = Except.ok none := by
  have hcond : ¬(res.statusCode < 200 ∨ 400 ≤ res.statusCode) := by omega
  refine ⟨fun x hx => ?_, fun hn => ?_, ?_⟩
  · simp [Billwerk.Do, hcond, hx]
  · simp [Billwerk.Do, hcond, hn]
  · simp [Billwerk.Do, hcond]

/-- Witness for C2: a 200 response with a non-empty JSON body and a nil
destination succeeds without error. -/
theorem do_success_status_witness :
    Billwerk.Do (Billwerk.New "key" []) ⟨200, "\x7b\"name\":\"gold\"\x7d"⟩
        (none : Option (String → Option Json)) = Except.ok none :=
  (do_success_status_decode (Billwerk.New "key" []) _ parseJsonTop
      (by decide) (by decide)).2.2

/-- C6: the display string of a decoded structured error is the short
message alone when the description is empty, and the short message, a
colon-space, and the description otherwise; in particular the spec's 422
response body yields the display string
`invalid_handle: Handle already exists`. -/
theorem error_response_display_string (e : ErrorResponse) :
    ErrorResponse.Error e =
      (if e.ErrorDescription = "" then e.ErrorMessage
       else e.ErrorMessage ++ ": " ++ e.ErrorDescription) ∧
    doErrorString (Billwerk.Do (Billwerk.New "key" []) ⟨422,
        "\x7b\"code\":105,\"error\":\"invalid_handle\",\"message\":\"Handle already exists\"\x7d"⟩
        (none : Option (String → Option Json))) =
      some "invalid_handle: Handle already exists" := by
  constructor
  · by_cases h : e.ErrorDescription = "" <;> simp [ErrorResponse.Error, h]
  · rfl

/-- C9 counterexample: the executor does not fix the base URL at
construction.  For one and the same executor, builders created while the
package-level `BaseURL` variable holds different values carry different
base URLs, and the builder simply echoes the variable's current value. -/
theorem executor_base_url_not_fixed_at_construction :
    (Billwerk.newBillwerkRequest (Billwerk.New "key" []) "https://changed.example").baseURL ≠
      (Billwerk.newBillwerkRequest (Billwerk.New "key" []) BaseURL).baseURL ∧
    (Billwerk.newBillwerkRequest (Billwerk.New "key" [])
        "https://changed.example").baseURL = "https://changed.example" :=
  ⟨by decide, rfl⟩

/-- C9 as amended: the executor's own fields are immutable — its API key is
exactly the one given at construction, untouched by any option — but the
base URL is not among them: a builder carries the value the shared
package-level `BaseURL` variable holds when the builder is created. -/
theorem executor_fields_immutable_and_base_url_read_at_call (k : String)
    (opts : List BillwerkOption) (cur : String) :
    (Billwerk.New k opts).apiKey = k ∧
    (Billwerk.newBillwerkRequest (Billwerk.New k opts) cur).baseURL = cur :=
  ⟨new_apiKey k opts, rfl⟩

theorem filterMap_pairs_same (k : String) (vs : List String) :
    List.filterMap (fun p => if p.1 = k then some p.2 else none)
      (vs.map (fun v => (k, v))) = vs := by
  induction vs with
  | nil => rfl
  | cons v rest ih => simp [List.filterMap_cons, ih]

theorem filterMap_pairs_ne (k k2 : String) (h : k2 ≠ k) (vs : List String) :
    List.filterMap (fun p => if p.1 = k then some p.2 else none)
      (vs.map (fun v => (k2, v))) = [] := by
  induction vs with
  | nil => rfl
  | cons v rest ih => simp [List.filterMap_cons, h, ih]

theorem pairsFor_flatten (k : String) (l : Values) :
    pairsFor k (l.flatMap (fun e => e.2.map (fun v => (e.1, v)))) = allVals k l := by
  induction l with
  | nil => rfl
  | cons e rest ih =>
      obtain ⟨k2, vs⟩ := e
      simp only [List.flatMap_cons, pairsFor, List.filterMap_append, allVals]
      by_cases h : k2 = k
      · subst h
        rw [filterMap_pairs_same]
        simp only [if_pos rfl]
        exact congrArg (vs ++ ·) ih
      · rw [filterMap_pairs_ne k k2 h]
        simp only [if_neg h, List.nil_append]
        exact ih

theorem allVals_nil_of_not_mem (k : String) (l : Values)
    (h : k ∉ l.map Prod.fst) : allVals k l = [] := by
  induction l with
  | nil => rfl
  | cons e rest ih =>
      simp only [List.map_cons, List.mem_cons, not_or] at h
      have hne : e.1 ≠ k := fun hc => h.1 hc.symm
      simp [allVals, hne, ih h.2]

theorem allVals_eq_lookupVals (k : String) (l : Values)
    (h : (l.map Prod.fst).Nodup) : allVals k l = lookupVals k l := by
  induction l with
  | nil => rfl
  | cons e rest ih =>
      simp only [List.map_cons, List.nodup_cons] at h
      by_cases hk : e.1 = k
      · have : allVals k rest = [] :=
          allVals_nil_of_not_mem k rest (by rw [← hk]; exact h.1)
        simp [allVals, lookupVals, hk, this]
      · simp [allVals, lookupVals, hk, ih h.2]

theorem allVals_perm (k : String) : ∀ {l l2 : Values}, List.Perm l l2 →
    (l.map Prod.fst).Nodup → allVals k l = allVals k l2 := by
  intro l l2 p
  induction p with
  | nil => intro _; rfl
  | cons x p ih =>
      intro h
      simp only [List.map_cons, List.nodup_cons] at h
      simp only [allVals]
      rw [ih h.2]
  | swap x y l =>
      intro h
      simp only [List.map_cons, List.nodup_cons, List.mem_cons, not_or] at h
      by_cases hy : y.1 = k <;> by_cases hx : x.1 = k
      · exact absurd (hy.trans hx.symm) h.1.1
      · simp [allVals, hy, hx]
      · simp [allVals, hy, hx]
      · simp [allVals, hy, hx]
  | trans p1 p2 ih1 ih2 =>
      intro h
      rw [ih1 h, ih2 ((p1.map Prod.fst).nodup h)]

theorem allVals_sortedByKey (k : String) (vs : Values)
    (h : (vs.map Prod.fst).Nodup) :
    allVals k (Values.sortedByKey vs) = allVals k vs :=
  allVals_perm k (List.perm_insertionSort keyLE vs)
    (((List.perm_insertionSort keyLE vs).symm.map Prod.fst).nodup h)

theorem pairsFor_encodedPairs (k : String) (vs : Values)
    (h : (vs.map Prod.fst).Nodup) :
    pairsFor k (encodedPairs vs) = lookupVals k vs :=
  calc pairsFor k (encodedPairs vs)
      = allVals k (Values.sortedByKey vs) := pairsFor_flatten k (Values.sortedByKey vs)
    _ = allVals k vs := allVals_sortedByKey k vs h
    _ = lookupVals k vs := allVals_eq_lookupVals k vs h

theorem lookupVals_add_same (vs : Values) (k w : String) :
    lookupVals k (Values.add vs k w) = lookupVals k vs ++ [w] := by
  induction vs with
  | nil => simp [Values.add, lookupVals]
  | cons e rest ih =>
      obtain ⟨k2, l⟩ := e
      by_cases h : k2 = k
      · simp [Values.add, lookupVals, h]
      · simp [Values.add, lookupVals, h, ih]

theorem lookupVals_add_ne (vs : Values) (k w k2 : String) (h : k2 ≠ k) :
    lookupVals k2 (Values.add vs k w) = lookupVals k2 vs := by
  have hne : k ≠ k2 := fun hc => h hc.symm
  induction vs with
  | nil => simp [Values.add, lookupVals, hne]
  | cons e rest ih =>
      obtain ⟨k3, l⟩ := e
      by_cases hk : k3 = k
      · subst hk
        simp [Values.add, lookupVals, hne]
      · simp [Values.add, lookupVals, hk, ih]

theorem mem_map_fst_add (vs : Values) (k w x : String) :
    x ∈ (Values.add vs k w).map Prod.fst ↔ x ∈ vs.map Prod.fst ∨ x = k := by
  induction vs with
  | nil => simp [Values.add]
  | cons e rest ih =>
      obtain ⟨k2, l⟩ := e
      by_cases h : k2 = k
      · subst h
        simp [Values.add]
        tauto
      · simp [Values.add, h, ih]
        tauto

theorem nodup_keys_add (vs : Values) (k w : String)
    (h : (vs.map Prod.fst).Nodup) : ((Values.add vs k w).map Prod.fst).Nodup := by
  induction vs with
  | nil => simp [Values.add]
  | cons e rest ih =>
      obtain ⟨k2, l⟩ := e
      simp only [List.map_cons, List.nodup_cons] at h
      by_cases hk : k2 = k
      · subst hk
        simpa [Values.add, List.map_cons, List.nodup_cons] using h
      · simp only [Values.add, if_neg hk, List.map_cons, List.nodup_cons,
          mem_map_fst_add, not_or]
        exact ⟨⟨h.1, hk⟩, ih h.2⟩

theorem addParams_cons (vs : Values) (k w : String) (ws : List String) :
    addParams vs k (w :: ws) = addParams (Values.add vs k w) k ws := rfl

theorem lookupVals_addParams (vs : Values) (k : String) (ws : List String) :
    lookupVals k (addParams vs k ws) = lookupVals k vs ++ ws := by
  induction ws generalizing vs with
  | nil => simp [addParams]
  | cons w ws ih =>
      rw [addParams_cons, ih, lookupVals_add_same, List.append_assoc,
        List.singleton_append]

theorem lookupVals_addParams_ne (vs : Values) (k : String) (ws : List String)
    (k2 : String) (h : k2 ≠ k) :
    lookupVals k2 (addParams vs k ws) = lookupVals k2 vs := by
  induction ws generalizing vs with
  | nil => simp [addParams]
  | cons w ws ih =>
      rw [addParams_cons, ih, lookupVals_add_ne _ _ _ _ h]

theorem nodup_keys_addParams (vs : Values) (k : String) (ws : List String)
    (h : (vs.map Prod.fst).Nodup) :
    ((addParams vs k ws).map Prod.fst).Nodup := by
  induction ws generalizing vs with
  | nil => exact h
  | cons w ws ih =>
      rw [addParams_cons]
      exact ih _ (nodup_keys_add vs k w h)

theorem foldl_AddParam_params (r : Request) (k : String) (ws : List String) :
    (ws.foldl (fun acc w => Request.AddParam acc k w) r).params =
      addParams r.params k ws := by
  induction ws generalizing r with
  | nil => rfl
  | cons w ws ih =>
      rw [List.foldl_cons, ih, addParams_cons]
      rfl

/-- C4: N calls of `AddParam` with one key render exactly the N values for
that key in the materialized query pair sequence, appended in call order
after whatever the key already held, and no other key's rendered values are
disturbed (`encodedPairs` is the ordered `key=value` sequence from which
`Values.Encode` builds the query string, and `pairsFor k` selects the
occurrences for key `k` in rendered order). -/
theorem addParam_appends_in_order (r : Request) (k : String) (ws : List String)
    (h : (r.params.map Prod.fst).Nodup) :
    pairsFor k (encodedPairs
        ((ws.foldl (fun acc w => Request.AddParam acc k w) r).params)) =
      lookupVals k r.params ++ ws ∧
    ∀ k2, k2 ≠ k →
      pairsFor k2 (encodedPairs
          ((ws.foldl (fun acc w => Request.AddParam acc k w) r).params)) =
        lookupVals k2 r.params := by
  rw [foldl_AddParam_params]
  have hnd := nodup_keys_addParams r.params k ws h
  constructor
  · rw [pairsFor_encodedPairs k _ hnd, lookupVals_addParams]
  · intro k2 hk2
    rw [pairsFor_encodedPairs k2 _ hnd, lookupVals_addParams_ne _ _ _ _ hk2]

/-- Witness for C4: two `AddParam` calls for the fresh key `filter` on a
fresh builder render exactly `active` then `inactive` for that key. -/
theorem addParam_appends_in_order_witness :
    pairsFor "filter" (encodedPairs
        ((["active", "inactive"].foldl
          (fun acc w => Request.AddParam acc "filter" w) Request.New).params)) =
      ["active", "inactive"] :=
  (addParam_appends_in_order Request.New "filter" ["active", "inactive"]
    (by decide)).1

theorem charListLe_refl (a : List Char) : charListLe a a = true := by
  induction a with
  | nil => rfl
  | cons x xs ih => simp [charListLe, lt_irrefl, ih]

theorem charListLe_total (a b : List Char) :
    charListLe a b = true ∨ charListLe b a = true := by
  induction a generalizing b with
  | nil => left; rfl
  | cons x xs ih =>
      cases b with
      | nil => right; rfl
      | cons y ys =>
          rcases lt_trichotomy x y with h | h | h
          · left; simp [charListLe, h]
          · subst h
            rcases ih ys with h2 | h2
            · left; simp [charListLe, lt_irrefl, h2]
            · right; simp [charListLe, lt_irrefl, h2]
          · right; simp [charListLe, h]

theorem charListLe_trans : ∀ {a b c : List Char}, charListLe a b = true →
    charListLe b c = true → charListLe a c = true := by
  intro a
  induction a with
  | nil => intro b c _ _; rfl
  | cons x xs ih =>
      intro b c h1 h2
      cases b with
      | nil => simp [charListLe] at h1
      | cons y ys =>
          cases c with
          | nil => simp [charListLe] at h2
          | cons z zs =>
              rcases lt_trichotomy x y with hxy | hxy | hxy
              · rcases lt_trichotomy y z with hyz | hyz | hyz
                · simp [charListLe, lt_trans hxy hyz]
                · subst hyz; simp [charListLe, hxy]
                · simp [charListLe, hyz, lt_asymm hyz] at h2
              · subst hxy
                rcases lt_trichotomy x z with hyz | hyz | hyz
                · simp [charListLe, hyz]
                · subst hyz
                  simp only [charListLe, lt_irrefl, if_false] at h1 h2 ⊢
                  exact ih h1 h2
                · simp [charListLe, hyz, lt_asymm hyz] at h2
              · simp [charListLe, hxy, lt_asymm hxy] at h1

theorem pairwise_strLe_const (x : String) (l : List String) :
    List.Pairwise (fun a b => strLe a b = true) (l.map (fun _ => x)) := by
  induction l with
  | nil => simp
  | cons y ys ih =>
      simp only [List.map_cons, List.pairwise_cons]
      refine ⟨fun b hb => ?_, ih⟩
      rcases List.mem_map.mp hb with ⟨_, _, rfl⟩
      exact charListLe_refl x.data

theorem keys_flatten_sorted (l : Values) (hs : List.Sorted keyLE l) :
    List.Sorted (fun a b => strLe a b = true)
      ((l.flatMap (fun e => e.2.map (fun v => (e.1, v)))).map Prod.fst) := by
  induction l with
  | nil => simp [List.Sorted]
  | cons e rest ih =>
      rw [List.sorted_cons] at hs
      simp only [List.flatMap_cons, List.map_append]
      refine List.pairwise_append.mpr ⟨?_, ih hs.2, ?_⟩
      · simpa [List.map_map, Function.comp] using pairwise_strLe_const e.1 e.2
      · intro a ha b hb
        have ha2 : a = e.1 := by
          rcases List.mem_map.mp ha with ⟨p, hp, rfl⟩
          rcases List.mem_map.mp hp with ⟨_, _, rfl⟩
          rfl
        rcases List.mem_map.mp hb with ⟨p, hp, rfl⟩
        rcases List.mem_flatMap.mp hp with ⟨e2, he2, hpe2⟩
        rcases List.mem_map.mp hpe2 with ⟨_, _, rfl⟩
        rw [ha2]
        exact hs.1 e2 he2

/-- C10: the materialized query renders distinct parameter keys in
lexicographic (code-point, equivalently byte-wise UTF-8) order regardless
of insertion order — the key sequence of the rendered pair list is sorted —
while the values of one and the same key keep their insertion order
(`pairsFor k` of the rendered pairs is exactly the stored value list of
`k`). -/
theorem encoded_query_keys_sorted (vs : Values) (k : String) :
    List.Sorted (fun a b => strLe a b = true) ((encodedPairs vs).map Prod.fst) ∧
    ((vs.map Prod.fst).Nodup → pairsFor k (encodedPairs vs) = lookupVals k vs) := by
  constructor
  · haveI : IsTotal (String × List String) keyLE :=
      ⟨fun a b => charListLe_total a.1.data b.1.data⟩
    haveI : IsTrans (String × List String) keyLE :=
      ⟨fun _ _ _ h1 h2 => charListLe_trans h1 h2⟩
    exact keys_flatten_sorted (Values.sortedByKey vs)
      (List.sorted_insertionSort keyLE vs)
  · exact fun h => pairsFor_encodedPairs k vs h

/-- Witness for C10: with keys inserted in the order `b`, `a`, the key `b`
still renders exactly its own value, and the hypothesis (distinct keys) is
discharged concretely. -/
theorem encoded_query_keys_sorted_witness :
    pairsFor "b" (encodedPairs [("b", ["2"]), ("a", ["1"])]) = ["2"] :=
  (encoded_query_keys_sorted [("b", ["2"]), ("a", ["1"])] "b").2 (by decide)
